import Mathlib

/-!
Verification of `tools/cts_tuner.py`: a shallow embedding of the parsing
helpers (`parse_wns_tns_from_log`, `parse_hold_presence`,
`parse_ccopt_skew_report`), the recommendation policy
(`recommend_for_domain`) and the aggregator (`propose_tuning`), together
with theorems settling the specification claims about them.

Modelling conventions:
* Python floats are modelled as exact rationals (`ℚ`); the numeric
  literals in the program are small decimals, and no claim depends on
  binary-representation error.
* `round(x, 3)` is modelled as rounding half-up at three decimals; no
  value reached in any claim is an exact half-thousandth tie.
* Fallible code (an uncaught `ValueError` from `float(...)`) is modelled
  with `Except String`; code that cannot raise is total.
* Regular-expression matching is specialised: each concrete pattern of the
  source is implemented as a deterministic matcher, and `re.search` as a
  leftmost scan over start positions.  For these particular patterns
  greedy matching without backtracking agrees with Python's semantics.
* `\s`, `str.strip`, `str.lower` are modelled on ASCII characters.
-/

set_option linter.unusedVariables false

/-- Class `\s` for ASCII characters, as used by Python's `re` and `str.strip`. -/
def isSpaceChar (c : Char) : Bool :=
  c = ' ' || c = '\t' || c = '\n' || c = '\r' || c = '\x0b' || c = '\x0c'

/-- Characters matched by the character class `[0-9.]`. -/
def isFragChar (c : Char) : Bool :=
  c.isDigit || c = '.'

/-- Python `str.strip()`: drop leading and trailing whitespace. -/
def stripChars (l : List Char) : List Char :=
  ((l.dropWhile isSpaceChar).reverse.dropWhile isSpaceChar).reverse

/-- Value of a list of decimal digit characters. -/
def digitsVal (l : List Char) : ℕ :=
  l.foldl (fun a c => 10 * a + (c.toNat - 48)) 0

/-- Python `float(s)` on an unsigned fragment: the fragment must consist of
digits with at most one dot and at least one digit (`"1."`, `".5"`, `"12"`
are accepted; `""`, `"."`, `"1.2.3"` are rejected with `None` here,
standing for a raised `ValueError` at the call site). -/
def pyFloatCore? (l : List Char) : Option ℚ :=
  let ip := l.takeWhile (fun c => c ≠ '.')
  let rest := l.dropWhile (fun c => c ≠ '.')
  match rest with
  | [] =>
      if ip.all Char.isDigit && !ip.isEmpty then some (digitsVal ip) else none
  | '.' :: fp =>
      if ip.all Char.isDigit && fp.all Char.isDigit && !(ip.isEmpty && fp.isEmpty)
      then some ((digitsVal ip : ℚ) + (digitsVal fp : ℚ) / (10 ^ fp.length))
      else none
  | _ => none

/-- Python `float(s)` on the sign-bearing fragments produced by the
patterns of the source (`[+-]?` followed by digits and dots). -/
def pyFloat? : List Char → Option ℚ
  | '-' :: r => (pyFloatCore? r).map Neg.neg
  | '+' :: r => pyFloatCore? r
  | r => pyFloatCore? r

/-- Match a literal (given in lowercase) case-insensitively at the head of
the input; return the rest of the input. -/
def matchLit : List Char → List Char → Option (List Char)
  | [], l => some l
  | _ :: _, [] => none
  | c :: cs, x :: xs => if x.toLower = c then matchLit cs xs else none

/-- Pattern `\s+`: at least one whitespace character, maximal munch. -/
def matchSpaces1 (l : List Char) : Option (List Char) :=
  match l with
  | c :: r => if isSpaceChar c then some (r.dropWhile isSpaceChar) else none
  | [] => none

/-- Lex `[+-]?\d+(?:\.\d+)?` at the head of the input, maximal munch;
return the matched fragment and the rest. -/
def lexSignNum (l : List Char) : Option (List Char × List Char) :=
  let p : List Char × List Char :=
    match l with
    | '+' :: r => (['+'], r)
    | '-' :: r => (['-'], r)
    | r => ([], r)
  let sgn := p.1
  let r1 := p.2
  let ds := r1.takeWhile Char.isDigit
  if ds.isEmpty then none
  else
    let r2 := r1.dropWhile Char.isDigit
    match r2 with
    | '.' :: r3 =>
        let fs := r3.takeWhile Char.isDigit
        if fs.isEmpty then some (sgn ++ ds, r2)
        else some (sgn ++ ds ++ '.' :: fs, r3.dropWhile Char.isDigit)
    | _ => some (sgn ++ ds, r2)

/-- Semantics of `re.search`: try the position matcher at every start position, left to
right (including the empty suffix), returning the first success. -/
def searchAux {α : Type} (f : List Char → Option α) : List Char → Option α
  | [] => f []
  | c :: r =>
      match f (c :: r) with
      | some a => some a
      | none => searchAux f r

/-- Match `WNS:\s*([+-]?\d+(?:\.\d+)?)\s+TNS:\s*([+-]?\d+(?:\.\d+)?)`
(case-insensitive) at the current position; return the two groups. -/
def matchComboAt (l : List Char) : Option (List Char × List Char) :=
  match matchLit "wns:".data l with
  | none => none
  | some r1 =>
      match lexSignNum (r1.dropWhile isSpaceChar) with
      | none => none
      | some (g1, r3) =>
          match matchSpaces1 r3 with
          | none => none
          | some r4 =>
              match matchLit "tns:".data r4 with
              | none => none
              | some r5 =>
                  match lexSignNum (r5.dropWhile isSpaceChar) with
                  | none => none
                  | some (g2, _) => some (g1, g2)

/-- Match `WNS:\s*([+-]?\d+(?:\.\d+)?)` at the current position. -/
def matchWnsAt (l : List Char) : Option (List Char) :=
  match matchLit "wns:".data l with
  | none => none
  | some r1 =>
      match lexSignNum (r1.dropWhile isSpaceChar) with
      | none => none
      | some (g, _) => some g

/-- Match `TNS:\s*([+-]?\d+(?:\.\d+)?)` at the current position. -/
def matchTnsAt (l : List Char) : Option (List Char) :=
  match matchLit "tns:".data l with
  | none => none
  | some r1 =>
      match lexSignNum (r1.dropWhile isSpaceChar) with
      | none => none
      | some (g, _) => some g

/-- Search `pat_combo.search(text)` of the source. -/
def searchCombo (l : List Char) : Option (List Char × List Char) :=
  searchAux matchComboAt l

/-- The standalone `WNS:` search of the source's fallback branch. -/
def searchWns (l : List Char) : Option (List Char) :=
  searchAux matchWnsAt l

/-- The standalone `TNS:` search of the source's fallback branch. -/
def searchTns (l : List Char) : Option (List Char) :=
  searchAux matchTnsAt l

/-- The `{"WNS": ..., "TNS": ...}` result of `parse_wns_tns_from_log`. -/
structure Timing where
  wns : Option ℚ
  tns : Option ℚ
  deriving DecidableEq, Repr

/-- Function `parse_wns_tns_from_log` (source lines 22-47).  The combined pattern is
tried first; on a match, the `try` block assigns `wns` then `tns`, so a
conversion failure on the first group leaves both absent and one on the
second group leaves only `tns` absent.  If the combined pattern does not
match anywhere, the two standalone patterns are searched independently,
each inside its own `try`.  No branch raises, hence the result is always
`Except.ok`. -/
def parse_wns_tns_from_log (text : String) : Except String Timing :=
  match searchCombo text.data with
  | some (g1, g2) =>
      match pyFloat? g1 with
      | none => .ok ⟨none, none⟩
      | some w =>
          match pyFloat? g2 with
          | none => .ok ⟨some w, none⟩
          | some t => .ok ⟨some w, some t⟩
  | none =>
      let wv := match searchWns text.data with
        | some g => pyFloat? g
        | none => none
      let tv := match searchTns text.data with
        | some g => pyFloat? g
        | none => none
      .ok ⟨wv, tv⟩

/-- Decidable substring test on character lists. -/
def containsSub : List Char → List Char → Bool
  | hay, needle =>
    match hay with
    | [] => needle.isEmpty
    | c :: t => needle.isPrefixOf (c :: t) || containsSub t needle

/-- The needle list of `parse_hold_presence` (source lines 53-58), verbatim:
the fourth entry is mixed-case in the source. -/
def holdNeedles : List String :=
  ["hold violation", "negative hold slack", "slack (hold)", "Hold Slack (VIOLATED)"]

/-- Function `parse_hold_presence` (source lines 49-60): lowercase the text, then
test whether any needle occurs as a substring. -/
def parse_hold_presence (text : String) : Bool :=
  let t := text.data.map Char.toLower
  holdNeedles.any (fun n => containsSub t n.data)

/-- Per-domain entry of the skew report: the inner Python dict, whose two
keys may each be absent. -/
structure DomainEntry where
  avg_insertion_ns : Option ℚ
  global_skew_ps : Option ℚ
  deriving DecidableEq, Repr

/-- Match `(Clock\s*Domain|Domain)\s*:\s*` then return the group
`([^\s]+)`, at the start of the (stripped) line; `re.match` anchoring.
The group keeps the original case of the line. -/
def matchHeaderRest (r : List Char) : Option (List Char) :=
  match r.dropWhile isSpaceChar with
  | ':' :: r2 =>
      let r3 := r2.dropWhile isSpaceChar
      let name := r3.takeWhile (fun c => !isSpaceChar c)
      if name.isEmpty then none else some name
  | _ => none

/-- The `mdom` pattern of source line 76, anchored at the line start.  The
first alternative `Clock\s*Domain` is tried before `Domain`. -/
def matchHeaderAt (l : List Char) : Option (List Char) :=
  let alt1 :=
    match matchLit "clock".data l with
    | some r =>
        match matchLit "domain".data (r.dropWhile isSpaceChar) with
        | some r2 => matchHeaderRest r2
        | none => none
    | none => none
  match alt1 with
  | some g => some g
  | none =>
      match matchLit "domain".data l with
      | some r => matchHeaderRest r
      | none => none

/-- After a matched field label: `\s*:\s*([0-9.]+)\s*` then the unit
literal; returns the `[0-9.]+` group. -/
def matchNumUnitRest (unit : List Char) (r : List Char) : Option (List Char) :=
  match r.dropWhile isSpaceChar with
  | ':' :: r2 =>
      let r3 := r2.dropWhile isSpaceChar
      let frag := r3.takeWhile isFragChar
      if frag.isEmpty then none
      else
        match matchLit unit ((r3.dropWhile isFragChar).dropWhile isSpaceChar) with
        | some _ => some frag
        | none => none
  | _ => none

/-- The `mins` pattern of source line 83 at one position:
`(Average\s+insertion\s+delay|Insertion\s+Delay)\s*:\s*([0-9.]+)\s*ns`. -/
def matchInsAt (l : List Char) : Option (List Char) :=
  let alt1 :=
    match matchLit "average".data l with
    | some r =>
        match matchSpaces1 r with
        | some r2 =>
            match matchLit "insertion".data r2 with
            | some r3 =>
                match matchSpaces1 r3 with
                | some r4 =>
                    match matchLit "delay".data r4 with
                    | some r5 => matchNumUnitRest "ns".data r5
                    | none => none
                | none => none
            | none => none
        | none => none
    | none => none
  match alt1 with
  | some g => some g
  | none =>
      match matchLit "insertion".data l with
      | some r =>
          match matchSpaces1 r with
          | some r2 =>
              match matchLit "delay".data r2 with
              | some r3 => matchNumUnitRest "ns".data r3
              | none => none
          | none => none
      | none => none

/-- The `mskew` pattern of source line 86 at one position:
`(Global\s+skew|Skew)\s*:\s*([0-9.]+)\s*ps`. -/
def matchSkewAt (l : List Char) : Option (List Char) :=
  let alt1 :=
    match matchLit "global".data l with
    | some r =>
        match matchSpaces1 r with
        | some r2 =>
            match matchLit "skew".data r2 with
            | some r3 => matchNumUnitRest "ps".data r3
            | none => none
        | none => none
    | none => none
  match alt1 with
  | some g => some g
  | none =>
      match matchLit "skew".data l with
      | some r => matchNumUnitRest "ps".data r
      | none => none

/-- Search by `re.search` of the insertion-delay pattern over a line. -/
def searchIns (l : List Char) : Option (List Char) :=
  searchAux matchInsAt l

/-- Search by `re.search` of the skew pattern over a line. -/
def searchSkew (l : List Char) : Option (List Char) :=
  searchAux matchSkewAt l

/-- Keys of an association list, in order. -/
def alistKeys (al : List (String × DomainEntry)) : List String :=
  al.map Prod.fst

/-- Python `domains.setdefault(k, ...)`: keep the list if the key is present,
otherwise append a fresh empty entry (Python dicts preserve insertion
order, so new keys go to the end). -/
def alistSetdefault (al : List (String × DomainEntry)) (k : String) :
    List (String × DomainEntry) :=
  if k ∈ alistKeys al then al else al ++ [(k, ⟨none, none⟩)]

/-- Assignment `domains[k]["avg_insertion_ns"] = v`. -/
def alistSetAvg : List (String × DomainEntry) → String → ℚ →
    List (String × DomainEntry)
  | [], _, _ => []
  | p :: t, k, v =>
      (if p.1 = k then (p.1, ⟨some v, p.2.global_skew_ps⟩) else p) :: alistSetAvg t k v

/-- Assignment `domains[k]["global_skew_ps"] = v`. -/
def alistSetSkew : List (String × DomainEntry) → String → ℚ →
    List (String × DomainEntry)
  | [], _, _ => []
  | p :: t, k, v =>
      (if p.1 = k then (p.1, ⟨p.2.avg_insertion_ns, some v⟩) else p) :: alistSetSkew t k v

/-- Lookup of a key's entry. -/
def alistFind : List (String × DomainEntry) → String → Option DomainEntry
  | [], _ => none
  | p :: t, k => if p.1 = k then some p.2 else alistFind t k

/-- State of the line loop of `parse_ccopt_skew_report`: the accumulated
`domains` dict and the `current` domain cursor. -/
structure SkewState where
  domains : List (String × DomainEntry)
  current : Option String
  deriving DecidableEq, Repr

/-- One iteration of the loop of source lines 74-88.  A header line updates
the cursor and `setdefault`s the entry, then `continue`s.  Otherwise, when
a current domain is set, the insertion-delay pattern and then the skew
pattern are searched on the same line; each match converts its fragment
with `float(...)`, which is unguarded here, so an unconvertible fragment
raises (`Except.error`). -/
def skewStep (st : SkewState) (rawLine : String) : Except String SkewState :=
  let line := stripChars rawLine.data
  match matchHeaderAt line with
  | some nm => .ok ⟨alistSetdefault st.domains (String.mk nm), some (String.mk nm)⟩
  | none =>
      match st.current with
      | none => .ok st
      | some cur =>
          match
            (match searchIns line with
             | some frag =>
                 match pyFloat? frag with
                 | some v => .ok (alistSetAvg st.domains cur v)
                 | none => .error "ValueError"
             | none => .ok st.domains : Except String (List (String × DomainEntry)))
          with
          | .error e => .error e
          | .ok d1 =>
              match searchSkew line with
              | some frag =>
                  match pyFloat? frag with
                  | some v => .ok ⟨alistSetSkew d1 cur v, some cur⟩
                  | none => .error "ValueError"
              | none => .ok ⟨d1, some cur⟩

/-- Run the line loop over a list of lines. -/
def skewRun : SkewState → List String → Except String SkewState
  | st, [] => .ok st
  | st, ln :: rest =>
      match skewStep st ln with
      | .ok st2 => skewRun st2 rest
      | .error e => .error e

/-- Function `parse_ccopt_skew_report` (source lines 62-90). -/
def parse_ccopt_skew_report (skew_text : String) :
    Except String (List (String × DomainEntry)) :=
  match skewRun ⟨[], none⟩ (skew_text.splitOn "\n") with
  | .ok st => .ok st.domains
  | .error e => .error e

/-- Python `round(x, 3)`, modelled as rounding half-up at three decimal
places over exact rationals (no value reached in any claim is an exact
half-thousandth tie, so the tie-breaking direction is immaterial). -/
def roundTo3 (x : ℚ) : ℚ :=
  ((⌊x * 1000 + 1 / 2⌋ : ℤ) : ℚ) / 1000

/-- Clamp `min (max x lo) hi`: the guardrail clamp of source lines 138-139. -/
def clampQ (lo hi x : ℚ) : ℚ :=
  min (max x lo) hi

/-- A note appended by `recommend_for_domain`, modelled by constructor and
carrying the values interpolated into the source's f-strings. -/
inductive Note where
  | setupFailing (domain : String) (wns : ℚ)
  | holdIssues (domain : String)
  | highSkew (domain : String) (skew : ℚ)
  deriving DecidableEq, Repr

/-- The fixed `impl_hints` list of source lines 142-147. -/
def implHints : List String :=
  [ "Reduce max_transition on long spines; upsize root buffers if latency balloons.",
    "Constrain ccopt with tighter -target_skew where failing, and adjust -max_insertion_delay accordingly.",
    "Rebalance CTS levels on critical domains; avoid over-buffering near sinks.",
    "Re-run STA (setup/hold) across worst/best PVT corners after CTS tweak." ]

/-- The result dict of `recommend_for_domain` (source lines 149-161), with
the `observed` sub-dict flattened into fields. -/
structure Recommendation where
  domain : String
  recommended_insertion_delay_ns : ℚ
  recommended_skew_target_ps : ℚ
  observed_avg_insertion_ns : Option ℚ
  observed_global_skew_ps : Option ℚ
  observed_wns : Option ℚ
  observed_hold_issues : Bool
  notes : List Note
  implementation_hints : List String
  deriving DecidableEq, Repr

/-- The three heuristic branches of `recommend_for_domain` (source lines
109-135), threaded in order over `(target_insertion, target_skew, notes)`. -/
def recoAdjust (domain : String) (wns : Option ℚ) (has_hold : Bool)
    (avg_insertion_ns global_skew_ps : Option ℚ) : ℚ × ℚ × List Note :=
  let target_insertion := avg_insertion_ns.getD 1.50
  let target_skew : ℚ := 80.0
  let s :=
    match wns with
    | some w =>
        if w < -0.02 then
          let factor : ℚ := if w < -0.10 then 0.85 else 0.9
          (max 0.7 (roundTo3 (target_insertion * factor)), min 70.0 target_skew,
           [Note.setupFailing domain w])
        else (target_insertion, target_skew, [])
    | none => (target_insertion, target_skew, [])
  let h :=
    if has_hold then
      (roundTo3 (s.1 * 1.08), max 90.0 s.2.1, s.2.2 ++ [Note.holdIssues domain])
    else s
  match global_skew_ps with
  | some gs =>
      if gs > 120.0 then (h.1, min h.2.1 70.0, h.2.2 ++ [Note.highSkew domain gs])
      else h
  | none => h

/-- `recommend_for_domain` (source lines 96-161): heuristic adjustment,
then the guardrail clamps, then the result dict. -/
def recommend_for_domain (domain : String) (wns : Option ℚ) (has_hold : Bool)
    (avg_insertion_ns global_skew_ps : Option ℚ) : Recommendation :=
  let g := recoAdjust domain wns has_hold avg_insertion_ns global_skew_ps
  { domain := domain
    recommended_insertion_delay_ns := clampQ 0.6 2.2 g.1
    recommended_skew_target_ps := clampQ 60.0 120.0 g.2.1
    observed_avg_insertion_ns := avg_insertion_ns
    observed_global_skew_ps := global_skew_ps
    observed_wns := wns
    observed_hold_issues := has_hold
    notes := g.2.2
    implementation_hints := implHints }

/-- Summary note of source line 206. -/
def noteWnsMissing : String :=
  "WNS not found; consider providing --wns override."

/-- Summary note of source line 208. -/
def noteHold : String :=
  "Hold issues detected; verify min-delay fixes after CTS retune."

/-- Summary note of source line 210. -/
def noteNoDomains : String :=
  "No domains parsed from skew report; check report format."

/-- The report returned by `propose_tuning` (source lines 212-220), with
the `summary` sub-dict flattened into fields. -/
structure TuningReport where
  summary_wns : Option ℚ
  summary_tns : Option ℚ
  summary_hold_issues : Bool
  summary_notes : List String
  recommendations : List Recommendation
  deriving DecidableEq, Repr

/-- Source line 178: `wns = wns_override if wns_override is not None else wns_auto`. -/
def effectiveWns (wns_override : Option ℚ) (wns_auto : Option ℚ) : Option ℚ :=
  match wns_override with
  | some w => some w
  | none => wns_auto

/-- Source line 179: `has_hold = has_hold_override if has_hold_override is
not None else has_hold_auto` (an explicit `False` override wins). -/
def effectiveHold (has_hold_override : Option Bool) (has_hold_auto : Bool) : Bool :=
  match has_hold_override with
  | some b => b
  | none => has_hold_auto

/-- Python truthiness of the optional `skew_text` argument (source line
183): `None` and the empty string are falsy. -/
def skewTruthy : Option String → Bool
  | some s => !s.isEmpty
  | none => false

/-- Source lines 186-188: if no domains were detected, assume the single
implicit domain `"default"` with both fields `None`. -/
def domainsOrDefault (dd : List (String × DomainEntry)) : List (String × DomainEntry) :=
  if dd.isEmpty then [("default", ⟨none, none⟩)] else dd

/-- Source lines 190-220: per-domain recommendations, summary notes and
the final report dict, given the already-resolved effective values and the
parsed skew domains. -/
def buildReport (timing : Timing) (wns : Option ℚ) (has_hold : Bool) (stv : Bool)
    (dd : List (String × DomainEntry)) : TuningReport :=
  let domains_data := domainsOrDefault dd
  let per_domain := domains_data.map
    (fun p => recommend_for_domain p.1 wns has_hold p.2.avg_insertion_ns p.2.global_skew_ps)
  let summary_notes :=
    (if wns = none then [noteWnsMissing] else []) ++
    (if has_hold then [noteHold] else []) ++
    (if stv && per_domain.isEmpty then [noteNoDomains] else [])
  ⟨wns, timing.tns, has_hold, summary_notes, per_domain⟩

/-- Function `propose_tuning` (source lines 167-220).  `if skew_text:` is Python
truthiness: `None` and the empty string both skip the skew parsing, whose
uncaught `ValueError` propagates out of this function. -/
def propose_tuning (log_text : String) (skew_text : Option String)
    (wns_override : Option ℚ) (has_hold_override : Option Bool) :
    Except String TuningReport :=
  match parse_wns_tns_from_log log_text with
  | .error e => .error e
  | .ok timing =>
      match (if skewTruthy skew_text
             then parse_ccopt_skew_report (skew_text.getD "")
             else .ok []) with
      | .error e => .error e
      | .ok dd =>
          .ok (buildReport timing
                (effectiveWns wns_override timing.wns)
                (effectiveHold has_hold_override (parse_hold_presence log_text))
                (skewTruthy skew_text) dd)

instance instDecEqExcept {ε α : Type} [DecidableEq ε] [DecidableEq α] :
    DecidableEq (Except ε α) := fun a b =>
  match a, b with
  | .error x, .error y =>
      if h : x = y then isTrue (congrArg Except.error h)
      else isFalse (fun hc => h (Except.error.inj hc))
  | .ok x, .ok y =>
      if h : x = y then isTrue (congrArg Except.ok h)
      else isFalse (fun hc => h (Except.ok.inj hc))
  | .error _, .ok _ => isFalse (fun hc => Except.noConfusion hc)
  | .ok _, .error _ => isFalse (fun hc => Except.noConfusion hc)

/-! ### Helper lemmas -/

/-- Totality: `parse_wns_tns_from_log` never raises: every branch of the source's
function returns normally (its `float` conversions sit inside `try`). -/
theorem parse_wns_tns_ok (t : String) : ∃ tm, parse_wns_tns_from_log t = .ok tm := by
  unfold parse_wns_tns_from_log
  split
  · split
    · exact ⟨_, rfl⟩
    · split
      · exact ⟨_, rfl⟩
      · exact ⟨_, rfl⟩
  · exact ⟨_, rfl⟩

/-- The observed fields of a recommendation are the policy's inputs. -/
theorem recommend_for_domain_observed (d : String) (w : Option ℚ) (hh : Bool)
    (a g : Option ℚ) :
    (recommend_for_domain d w hh a g).observed_wns = w ∧
    (recommend_for_domain d w hh a g).observed_hold_issues = hh ∧
    (recommend_for_domain d w hh a g).domain = d ∧
    (recommend_for_domain d w hh a g).observed_avg_insertion_ns = a ∧
    (recommend_for_domain d w hh a g).observed_global_skew_ps = g :=
  ⟨rfl, rfl, rfl, rfl, rfl⟩

/-- Unfolding `propose_tuning` on given results of the two parsers. -/
theorem propose_tuning_eq (log : String) (st : Option String) (wo : Option ℚ)
    (ho : Option Bool) (tm : Timing) (dd : List (String × DomainEntry))
    (htm : parse_wns_tns_from_log log = .ok tm)
    (hdd : (if skewTruthy st then parse_ccopt_skew_report (st.getD "")
            else .ok []) = .ok dd) :
    propose_tuning log st wo ho =
      .ok (buildReport tm (effectiveWns wo tm.wns)
            (effectiveHold ho (parse_hold_presence log)) (skewTruthy st) dd) := by
  unfold propose_tuning
  rw [htm, hdd]

/-! ### C1 -/

/-- C1: for every input (domain, optional wns, hold flag, optional
avg_insertion_ns, optional global_skew_ps), `recommend_for_domain` returns
a recommendation with `recommended_insertion_delay_ns ∈ [0.6, 2.2]` and
`recommended_skew_target_ps ∈ [60.0, 120.0]`. -/
theorem recommend_for_domain_bands (d : String) (w : Option ℚ) (hh : Bool)
    (a g : Option ℚ) :
    0.6 ≤ (recommend_for_domain d w hh a g).recommended_insertion_delay_ns ∧
    (recommend_for_domain d w hh a g).recommended_insertion_delay_ns ≤ 2.2 ∧
    60.0 ≤ (recommend_for_domain d w hh a g).recommended_skew_target_ps ∧
    (recommend_for_domain d w hh a g).recommended_skew_target_ps ≤ 120.0 := by
  refine ⟨?_, ?_, ?_, ?_⟩ <;>
    simp only [recommend_for_domain, clampQ]
  · exact le_min (le_max_right _ _) (by norm_num)
  · exact min_le_right _ _
  · exact le_min (le_max_right _ _) (by norm_num)
  · exact min_le_right _ _

/-! ### C2 -/

/-- C2: on domain `"core_clk"` with `avg_insertion_ns = 1.82`,
`global_skew_ps = 125.0`, `wns = -0.120`, `hold_issues = true`, the policy
returns `recommended_insertion_delay_ns = 1.671` and
`recommended_skew_target_ps = 70.0` with exactly the three notes (setup,
hold, high-skew) in that order; the stated intermediate trace values
`1.82 → 1.547 → 1.671` and `80 → 70 → 90 → 70` are those produced by the
branch expressions of the code, and the final clamp leaves both targets
unchanged. -/
theorem recommend_core_clk_scenario :
    (recommend_for_domain "core_clk" (some (-0.120)) true (some 1.82) (some 125.0)).recommended_insertion_delay_ns = 1.671 ∧
    (recommend_for_domain "core_clk" (some (-0.120)) true (some 1.82) (some 125.0)).recommended_skew_target_ps = 70.0 ∧
    (recommend_for_domain "core_clk" (some (-0.120)) true (some 1.82) (some 125.0)).notes =
      [Note.setupFailing "core_clk" (-0.120), Note.holdIssues "core_clk",
       Note.highSkew "core_clk" 125.0] ∧
    ((-0.120 : ℚ) < -0.10) = True ∧
    max 0.7 (roundTo3 (1.82 * 0.85)) = 1.547 ∧
    roundTo3 (1.547 * 1.08) = 1.671 ∧
    min 70.0 (80.0 : ℚ) = 70.0 ∧
    max 90.0 (70.0 : ℚ) = 90.0 ∧
    min (90.0 : ℚ) 70.0 = 70.0 ∧
    clampQ 0.6 2.2 1.671 = 1.671 ∧
    clampQ 60.0 120.0 (70.0 : ℚ) = 70.0 := by
  refine ⟨by decide!, by decide!, by decide!, by simp; decide!, by decide!, by decide!,
    by decide!, by decide!, by decide!, by decide!, by decide!⟩

/-! ### C3 -/

/-- C3 (refuted, code bug): on the log text `"Hold Slack (VIOLATED)"` the
lowercased text does contain the substring `"hold slack (violated)"`, so
the claimed detection rule answers true, but `parse_hold_presence` returns
false: the source lowercases the text yet keeps the fourth needle in mixed
case, so that needle can never match. -/
theorem parse_hold_presence_violated_dead_needle :
    parse_hold_presence "Hold Slack (VIOLATED)" = false ∧
    containsSub ("Hold Slack (VIOLATED)".data.map Char.toLower)
      ("hold slack (violated)".data) = true := by
  exact ⟨by decide!, by decide!⟩

/-! ### C4 -/

/-- C4 counterexample: the claim says the extractors never raise on a
numeric conversion failure, naming the skew line whose matched fragment is
`"1.2.3"`; but `parse_ccopt_skew_report` converts its matched fragments
without a guard, so exactly that input raises a `ValueError`. -/
theorem parse_ccopt_skew_report_raises :
    parse_ccopt_skew_report "Domain: a\nInsertion Delay: 1.2.3 ns" = .error "ValueError" := by
  decide!

/-- C4 amended: the timing-log extractor never raises (its conversions are
inside `try`/`except`, so a failure only leaves the field absent), but the
skew-report extractor's `float` conversion is unguarded: on a matched
fragment that is not a valid float literal, such as `"1.2.3"`, the
exception propagates instead of the field staying absent. -/
theorem extractors_error_behaviour :
    (∀ t, ∃ tm, parse_wns_tns_from_log t = .ok tm) ∧
    parse_ccopt_skew_report "Domain: a\nInsertion Delay: 1.2.3 ns" = .error "ValueError" :=
  ⟨parse_wns_tns_ok, by decide!⟩

/-! ### C5 -/

/-- C5 (refuted, code bug): with non-empty skew text `"nonsense"` the skew
extractor yields zero domains, yet the returned summary notes contain only
the missing-WNS note and not the no-domains note: the source guards that
note with `if skew_text and not per_domain`, and `per_domain` is never
empty because of the `"default"` fallback, so the note is unreachable. -/
theorem propose_tuning_missing_nodomains_note :
    parse_ccopt_skew_report "nonsense" = .ok [] ∧
    Except.map TuningReport.summary_notes (propose_tuning "" (some "nonsense") none none) =
      .ok [noteWnsMissing] ∧
    noteNoDomains ∉ [noteWnsMissing] := by
  refine ⟨by decide!, by decide!, by decide!⟩

/-! ### C6 -/

/-- C6: when no skew text is given (or it is empty, or the skew extractor
returns the empty mapping), the aggregator produces exactly one
recommendation, for the synthetic domain `"default"`, with both observed
numeric fields absent. -/
theorem propose_tuning_default_domain (log : String) (wo : Option ℚ) (ho : Option Bool)
    (st : Option String)
    (h : st = none ∨ st = some "" ∨ ∃ s, st = some s ∧ parse_ccopt_skew_report s = .ok []) :
    Except.map (fun r => r.recommendations.map
        (fun rec => (rec.domain, rec.observed_avg_insertion_ns, rec.observed_global_skew_ps)))
      (propose_tuning log st wo ho) = .ok [("default", none, none)] := by
  obtain ⟨tm, htm⟩ := parse_wns_tns_ok log
  have hdd : (if skewTruthy st then parse_ccopt_skew_report (st.getD "") else .ok []) =
      (.ok [] : Except String (List (String × DomainEntry))) := by
    rcases h with rfl | rfl | ⟨s, rfl, hs⟩
    · rfl
    · rfl
    · by_cases he : s.isEmpty
      · simp [skewTruthy, he]
      · simp [skewTruthy, he, hs]
  rw [propose_tuning_eq log st wo ho tm [] htm hdd]
  simp [buildReport, domainsOrDefault, Except.map, recommend_for_domain]

/-! ### C8 -/

/-- C8: WNS/TNS extraction tries the combined one-line pattern first and
falls back to the independent standalone searches only when the combined
pattern matches nowhere; on `"WNS: -0.120  TNS: -57.000"` it yields
`wns = -0.120` and `tns = -57.000`. -/
theorem parse_wns_tns_strategy :
    (∀ t g1 g2, searchCombo t.data = some (g1, g2) →
      parse_wns_tns_from_log t =
        .ok (match pyFloat? g1 with
             | none => ⟨none, none⟩
             | some w => ⟨some w, pyFloat? g2⟩)) ∧
    (∀ t, searchCombo t.data = none →
      parse_wns_tns_from_log t =
        .ok ⟨(searchWns t.data).bind pyFloat?, (searchTns t.data).bind pyFloat?⟩) ∧
    parse_wns_tns_from_log "WNS: -0.120  TNS: -57.000" =
      .ok ⟨some (-0.120), some (-57.000)⟩ := by
  refine ⟨?_, ?_, by decide!⟩
  · intro t g1 g2 h
    unfold parse_wns_tns_from_log
    rw [h]
    dsimp only
    rcases pyFloat? g1 with _ | w
    · rfl
    · rcases pyFloat? g2 with _ | v <;> rfl
  · intro t h
    unfold parse_wns_tns_from_log
    rw [h]
    dsimp only
    rcases searchWns t.data with _ | g <;> rcases searchTns t.data with _ | g2 <;> rfl

/-! ### C9 -/

/-- C9: in the aggregator, the effective wns recorded in (and passed to)
every produced recommendation is the override when one is provided and
otherwise the extracted value, and the effective hold flag is the override
when provided (including an explicit false) and otherwise the extracted
value. -/
theorem propose_tuning_override_precedence (log : String) (st : Option String)
    (wo : Option ℚ) (ho : Option Bool) (r : TuningReport) (tm : Timing)
    (rec : Recommendation)
    (hr : propose_tuning log st wo ho = .ok r)
    (htm : parse_wns_tns_from_log log = .ok tm)
    (hrec : rec ∈ r.recommendations) :
    rec.observed_wns = (match wo with | some w => some w | none => tm.wns) ∧
    rec.observed_hold_issues =
      (match ho with | some b => b | none => parse_hold_presence log) := by
  rcases hq : (if skewTruthy st then parse_ccopt_skew_report (st.getD "")
               else (.ok [] : Except String (List (String × DomainEntry)))) with e | dd
  · unfold propose_tuning at hr
    rw [htm, hq] at hr
    exact absurd hr (by simp)
  · rw [propose_tuning_eq log st wo ho tm dd htm hq] at hr
    obtain rfl := (Except.ok.inj hr).symm
    simp only [buildReport] at hrec
    obtain ⟨p, hp, rfl⟩ := List.mem_map.mp hrec
    constructor
    · show effectiveWns wo tm.wns = _
      cases wo <;> rfl
    · show effectiveHold ho (parse_hold_presence log) = _
      cases ho <;> rfl

/-- Witness for C6 at the concrete input `st = none`. -/
theorem propose_tuning_default_domain_w :
    Except.map (fun r => r.recommendations.map
        (fun rec => (rec.domain, rec.observed_avg_insertion_ns, rec.observed_global_skew_ps)))
      (propose_tuning "" none none none) = .ok [("default", none, none)] :=
  propose_tuning_default_domain "" none none none (Or.inl rfl)

/-- Witness for C8's fallback clause at the concrete input `""`. -/
theorem parse_wns_tns_strategy_w :
    parse_wns_tns_from_log "" =
      .ok ⟨(searchWns "".data).bind pyFloat?, (searchTns "".data).bind pyFloat?⟩ :=
  parse_wns_tns_strategy.2.1 "" (by decide!)

/-- Witness for C9 at the spec's override example: log `"WNS: -0.050"`
with override `wns = -0.200` makes the policy see `-0.200`. -/
theorem propose_tuning_override_precedence_w :
    (Recommendation.mk "default" 1.275 70.0 none none (some (-0.2)) false
        [Note.setupFailing "default" (-0.2)] implHints).observed_wns =
      (match (some (-0.2) : Option ℚ) with
       | some w => some w
       | none => (Timing.mk (some (-0.05)) none).wns) ∧
    (Recommendation.mk "default" 1.275 70.0 none none (some (-0.2)) false
        [Note.setupFailing "default" (-0.2)] implHints).observed_hold_issues =
      (match (none : Option Bool) with
       | some b => b
       | none => parse_hold_presence "WNS: -0.050") :=
  propose_tuning_override_precedence "WNS: -0.050" none (some (-0.2)) none
    (TuningReport.mk (some (-0.2)) none false []
      [Recommendation.mk "default" 1.275 70.0 none none (some (-0.2)) false
        [Note.setupFailing "default" (-0.2)] implHints])
    (Timing.mk (some (-0.05)) none)
    (Recommendation.mk "default" 1.275 70.0 none none (some (-0.2)) false
      [Note.setupFailing "default" (-0.2)] implHints)
    (by decide!) (by decide!) (by decide!)

/-! ### C7 infrastructure -/

/-- The domain-header names of a list of lines, in text order. -/
def headersOf (lines : List String) : List String :=
  lines.filterMap (fun l => (matchHeaderAt (stripChars l.data)).map String.mk)

/-- First-seen deduplication with an accumulator of already-seen names. -/
def dedupFirstAux (seen : List String) : List String → List String
  | [] => []
  | a :: r => if a ∈ seen then dedupFirstAux seen r else a :: dedupFirstAux (a :: seen) r

/-- First-seen deduplication: keep each name's first occurrence. -/
def dedupFirst (l : List String) : List String :=
  dedupFirstAux [] l

theorem alistSetdefault_mem (al : List (String × DomainEntry)) (k : String)
    (h : k ∈ alistKeys al) : alistSetdefault al k = al := by
  unfold alistSetdefault
  rw [if_pos h]

theorem alistKeys_setdefault (al : List (String × DomainEntry)) (k : String) :
    alistKeys (alistSetdefault al k) =
      if k ∈ alistKeys al then alistKeys al else alistKeys al ++ [k] := by
  unfold alistSetdefault
  by_cases h : k ∈ alistKeys al
  · rw [if_pos h, if_pos h]
  · rw [if_neg h, if_neg h]
    simp [alistKeys]

theorem alistKeys_setAvg (al : List (String × DomainEntry)) (k : String) (v : ℚ) :
    alistKeys (alistSetAvg al k v) = alistKeys al := by
  induction al with
  | nil => rfl
  | cons p t ih =>
      unfold alistSetAvg
      by_cases h : p.1 = k
      · simp only [alistKeys, List.map_cons, if_pos h] at ih ⊢
        rw [ih]
      · simp only [alistKeys, List.map_cons, if_neg h] at ih ⊢
        rw [ih]

theorem alistKeys_setSkew (al : List (String × DomainEntry)) (k : String) (v : ℚ) :
    alistKeys (alistSetSkew al k v) = alistKeys al := by
  induction al with
  | nil => rfl
  | cons p t ih =>
      unfold alistSetSkew
      by_cases h : p.1 = k
      · simp only [alistKeys, List.map_cons, if_pos h] at ih ⊢
        rw [ih]
      · simp only [alistKeys, List.map_cons, if_neg h] at ih ⊢
        rw [ih]

theorem alistFind_setAvg (al : List (String × DomainEntry)) (k : String) (v : ℚ)
    (h : k ∈ alistKeys al) :
    (alistFind (alistSetAvg al k v) k).map DomainEntry.avg_insertion_ns = some (some v) := by
  induction al with
  | nil => simp [alistKeys] at h
  | cons p t ih =>
      unfold alistSetAvg alistFind
      by_cases hpk : p.1 = k
      · rw [if_pos hpk]
        simp [if_pos hpk]
      · rw [if_neg hpk]
        have h' : k ∈ alistKeys t := by
          rcases List.mem_cons.mp h with h1 | h1
          · exact absurd h1.symm hpk
          · exact h1
        simp only [if_neg hpk]
        exact ih h'

theorem alistFind_setSkew (al : List (String × DomainEntry)) (k : String) (v : ℚ)
    (h : k ∈ alistKeys al) :
    (alistFind (alistSetSkew al k v) k).map DomainEntry.global_skew_ps = some (some v) := by
  induction al with
  | nil => simp [alistKeys] at h
  | cons p t ih =>
      unfold alistSetSkew alistFind
      by_cases hpk : p.1 = k
      · rw [if_pos hpk]
        simp [if_pos hpk]
      · rw [if_neg hpk]
        have h' : k ∈ alistKeys t := by
          rcases List.mem_cons.mp h with h1 | h1
          · exact absurd h1.symm hpk
          · exact h1
        simp only [if_neg hpk]
        exact ih h'

theorem alistFind_setSkew_avg (al : List (String × DomainEntry)) (k : String) (v : ℚ) :
    (alistFind (alistSetSkew al k v) k).map DomainEntry.avg_insertion_ns =
      (alistFind al k).map DomainEntry.avg_insertion_ns := by
  induction al with
  | nil => rfl
  | cons p t ih =>
      unfold alistSetSkew alistFind
      by_cases hpk : p.1 = k
      · rw [if_pos hpk]
        simp [if_pos hpk]
      · rw [if_neg hpk]
        simp only [if_neg hpk]
        exact ih

theorem dedupFirstAux_congr (l : List String) : ∀ s1 s2 : List String,
    (∀ x, x ∈ s1 ↔ x ∈ s2) → dedupFirstAux s1 l = dedupFirstAux s2 l := by
  induction l with
  | nil => intro s1 s2 h; rfl
  | cons a r ih =>
      intro s1 s2 h
      unfold dedupFirstAux
      by_cases ha : a ∈ s1
      · rw [if_pos ha, if_pos ((h a).mp ha)]
        exact ih s1 s2 h
      · rw [if_neg ha, if_neg (fun hc => ha ((h a).mpr hc))]
        refine congrArg _ (ih (a :: s1) (a :: s2) ?_)
        intro x
        simp [h x]

theorem headersOf_cons (l : String) (rest : List String) :
    headersOf (l :: rest) =
      (match matchHeaderAt (stripChars l.data) with
       | some nm => String.mk nm :: headersOf rest
       | none => headersOf rest) := by
  unfold headersOf
  rcases hh : matchHeaderAt (stripChars l.data) with _ | nm <;>
    simp [List.filterMap_cons, hh]

theorem skewStep_keys (st : SkewState) (line : String) (st2 : SkewState)
    (h : skewStep st line = .ok st2) :
    alistKeys st2.domains =
      (match matchHeaderAt (stripChars line.data) with
       | some nm =>
           if String.mk nm ∈ alistKeys st.domains then alistKeys st.domains
           else alistKeys st.domains ++ [String.mk nm]
       | none => alistKeys st.domains) := by
  unfold skewStep at h
  dsimp only at h
  rcases hh : matchHeaderAt (stripChars line.data) with _ | nm <;> rw [hh] at h <;>
    dsimp only at h
  · rcases hcur : st.current with _ | cur <;> rw [hcur] at h <;> dsimp only at h
    · obtain rfl := Except.ok.inj h
      rfl
    · rcases hins : searchIns (stripChars line.data) with _ | frag <;> rw [hins] at h <;>
        dsimp only at h
      · rcases hsk : searchSkew (stripChars line.data) with _ | frag2 <;> rw [hsk] at h <;>
          dsimp only at h
        · obtain rfl := Except.ok.inj h
          rfl
        · rcases hpf : pyFloat? frag2 with _ | v2 <;> rw [hpf] at h <;> dsimp only at h
          · exact Except.noConfusion h
          · obtain rfl := Except.ok.inj h
            exact alistKeys_setSkew st.domains cur v2
      · rcases hpf : pyFloat? frag with _ | v <;> rw [hpf] at h <;> dsimp only at h
        · exact Except.noConfusion h
        · rcases hsk : searchSkew (stripChars line.data) with _ | frag2 <;> rw [hsk] at h <;>
            dsimp only at h
          · obtain rfl := Except.ok.inj h
            exact alistKeys_setAvg st.domains cur v
          · rcases hpf2 : pyFloat? frag2 with _ | v2 <;> rw [hpf2] at h <;> dsimp only at h
            · exact Except.noConfusion h
            · obtain rfl := Except.ok.inj h
              exact (alistKeys_setSkew _ _ _).trans (alistKeys_setAvg _ _ _)
  · obtain rfl := Except.ok.inj h
    exact alistKeys_setdefault st.domains (String.mk nm)

theorem dedupFirstAux_cons_mem (seen : List String) (a : String) (r : List String)
    (h : a ∈ seen) : dedupFirstAux seen (a :: r) = dedupFirstAux seen r := by
  rw [dedupFirstAux, if_pos h]

theorem dedupFirstAux_cons_not_mem (seen : List String) (a : String) (r : List String)
    (h : a ∉ seen) : dedupFirstAux seen (a :: r) = a :: dedupFirstAux (a :: seen) r := by
  rw [dedupFirstAux, if_neg h]

theorem skewRun_keys : ∀ (lines : List String) (st st' : SkewState),
    skewRun st lines = .ok st' →
    alistKeys st'.domains =
      alistKeys st.domains ++ dedupFirstAux (alistKeys st.domains) (headersOf lines) := by
  intro lines
  induction lines with
  | nil =>
      intro st st' h
      obtain rfl := Except.ok.inj h
      simp [headersOf, dedupFirstAux]
  | cons ln rest ih =>
      intro st st' h
      unfold skewRun at h
      rcases hs : skewStep st ln with e | st1 <;> rw [hs] at h <;> dsimp only at h
      · exact Except.noConfusion h
      · have hk := skewStep_keys st ln st1 hs
        have hrest := ih st1 st' h
        rw [hrest, headersOf_cons]
        rcases hh : matchHeaderAt (stripChars ln.data) with _ | nm <;> rw [hh] at hk <;>
          dsimp only at hk <;> dsimp only
        · rw [hk]
        · by_cases hmem : String.mk nm ∈ alistKeys st.domains
          · rw [if_pos hmem] at hk
            rw [hk, dedupFirstAux_cons_mem _ _ _ hmem]
          · rw [if_neg hmem] at hk
            rw [hk, dedupFirstAux_cons_not_mem _ _ _ hmem, List.append_assoc]
            refine congrArg _ ?_
            show String.mk nm :: _ = String.mk nm :: _
            refine congrArg _ (dedupFirstAux_congr _ _ _ ?_)
            intro x
            simp [or_comm]

/-! ### C7 -/

/-- C7: the skew extractor behaves as the specified line state machine:
(1) a repeated header for an already-seen domain keeps the accumulated
entries unchanged (only the cursor moves), so previously parsed fields are
not cleared; (2) an insertion-delay field line under the current domain
overwrites `avg_insertion_ns` with the newly parsed value regardless of
any earlier value (last occurrence wins); (3) a skew field line under the
current domain likewise overwrites `global_skew_ps` regardless of any
earlier value; (4) before any domain header, a non-header line leaves the
state untouched; (5) the output mapping's order is the order in which
domain headers were first encountered. -/
theorem skew_parser_state_machine :
    (∀ st line nm, matchHeaderAt (stripChars line.data) = some nm →
       String.mk nm ∈ alistKeys st.domains →
       skewStep st line = .ok ⟨st.domains, some (String.mk nm)⟩) ∧
    (∀ st cur line frag v st2,
       st.current = some cur →
       matchHeaderAt (stripChars line.data) = none →
       searchIns (stripChars line.data) = some frag →
       pyFloat? frag = some v →
       cur ∈ alistKeys st.domains →
       skewStep st line = .ok st2 →
       (alistFind st2.domains cur).map DomainEntry.avg_insertion_ns = some (some v)) ∧
    (∀ st cur line frag v st2,
       st.current = some cur →
       matchHeaderAt (stripChars line.data) = none →
       searchSkew (stripChars line.data) = some frag →
       pyFloat? frag = some v →
       cur ∈ alistKeys st.domains →
       skewStep st line = .ok st2 →
       (alistFind st2.domains cur).map DomainEntry.global_skew_ps = some (some v)) ∧
    (∀ st line, st.current = none → matchHeaderAt (stripChars line.data) = none →
       skewStep st line = .ok st) ∧
    (∀ t res, parse_ccopt_skew_report t = .ok res →
       alistKeys res = dedupFirst (headersOf (t.splitOn "\n"))) := by
  refine ⟨?_, ?_, ?_, ?_, ?_⟩
  · intro st line nm hh hm
    unfold skewStep
    dsimp only
    rw [hh]
    dsimp only
    rw [alistSetdefault_mem st.domains (String.mk nm) hm]
  · intro st cur line frag v st2 hcur hh hins hpf hmem hstep
    unfold skewStep at hstep
    dsimp only at hstep
    rw [hh] at hstep
    dsimp only at hstep
    rw [hcur] at hstep
    dsimp only at hstep
    rw [hins] at hstep
    dsimp only at hstep
    rw [hpf] at hstep
    dsimp only at hstep
    rcases hsk : searchSkew (stripChars line.data) with _ | frag2 <;> rw [hsk] at hstep <;>
      dsimp only at hstep
    · obtain rfl := Except.ok.inj hstep
      exact alistFind_setAvg st.domains cur v hmem
    · rcases hpf2 : pyFloat? frag2 with _ | v2 <;> rw [hpf2] at hstep <;> dsimp only at hstep
      · exact Except.noConfusion hstep
      · obtain rfl := Except.ok.inj hstep
        dsimp only
        rw [alistFind_setSkew_avg]
        exact alistFind_setAvg st.domains cur v hmem
  · intro st cur line frag v st2 hcur hh hsk hpf hmem hstep
    unfold skewStep at hstep
    dsimp only at hstep
    rw [hh] at hstep
    dsimp only at hstep
    rw [hcur] at hstep
    dsimp only at hstep
    rcases hins : searchIns (stripChars line.data) with _ | frag1 <;> rw [hins] at hstep <;>
      dsimp only at hstep
    · rw [hsk] at hstep
      dsimp only at hstep
      rw [hpf] at hstep
      dsimp only at hstep
      obtain rfl := Except.ok.inj hstep
      exact alistFind_setSkew st.domains cur v hmem
    · rcases hpf1 : pyFloat? frag1 with _ | v1 <;> rw [hpf1] at hstep <;> dsimp only at hstep
      · exact Except.noConfusion hstep
      · rw [hsk] at hstep
        dsimp only at hstep
        rw [hpf] at hstep
        dsimp only at hstep
        obtain rfl := Except.ok.inj hstep
        dsimp only
        refine alistFind_setSkew _ cur v ?_
        rw [alistKeys_setAvg]
        exact hmem
  · intro st line hcur hh
    unfold skewStep
    dsimp only
    rw [hh]
    dsimp only
    rw [hcur]
  · intro t res hres
    unfold parse_ccopt_skew_report at hres
    rcases hr : skewRun ⟨[], none⟩ (t.splitOn "\n") with e | stf <;> rw [hr] at hres <;>
      dsimp only at hres
    · exact Except.noConfusion hres
    · obtain rfl := Except.ok.inj hres
      have hkeys := skewRun_keys (t.splitOn "\n") ⟨[], none⟩ stf hr
      simpa [alistKeys, dedupFirst] using hkeys

/-- Witness for C7 at concrete inputs: a repeated `Domain: a` header keeps
the entry `("a", avg = 9)`; an insertion-delay line overwrites `avg = 9`
with `1.5`; a skew line overwrites `skew = 7` with `125`; a non-header
line before any header is ignored; and the parsed report of a two-header
text lists its single domain in first-encounter order. -/
theorem skew_parser_state_machine_w :
    skewStep ⟨[("a", ⟨some 9, none⟩)], none⟩ "Domain: a" =
      .ok ⟨[("a", ⟨some 9, none⟩)], some "a"⟩ ∧
    (alistFind (SkewState.mk [("a", ⟨some 1.5, none⟩)] (some "a")).domains "a").map
      DomainEntry.avg_insertion_ns = some (some 1.5) ∧
    (alistFind (SkewState.mk [("a", ⟨none, some 125⟩)] (some "a")).domains "a").map
      DomainEntry.global_skew_ps = some (some 125) ∧
    skewStep ⟨[], none⟩ "noise" = .ok ⟨[], none⟩ ∧
    alistKeys [("a", DomainEntry.mk (some 1) none)] =
      dedupFirst (headersOf (("Domain: a\nDomain: a\nInsertion delay: 1 ns").splitOn "\n")) :=
  ⟨skew_parser_state_machine.1 ⟨[("a", ⟨some 9, none⟩)], none⟩ "Domain: a" "a".data
      (by decide!) (by decide!),
   skew_parser_state_machine.2.1 ⟨[("a", ⟨some 9, none⟩)], some "a"⟩ "a"
      "Insertion Delay: 1.5 ns" "1.5".data 1.5 ⟨[("a", ⟨some 1.5, none⟩)], some "a"⟩
      (by decide!) (by decide!) (by decide!) (by decide!) (by decide!) (by decide!),
   skew_parser_state_machine.2.2.1 ⟨[("a", ⟨none, some 7⟩)], some "a"⟩ "a"
      "Global skew: 125 ps" "125".data 125 ⟨[("a", ⟨none, some 125⟩)], some "a"⟩
      (by decide!) (by decide!) (by decide!) (by decide!) (by decide!) (by decide!),
   skew_parser_state_machine.2.2.2.1 ⟨[], none⟩ "noise" (by decide!) (by decide!),
   skew_parser_state_machine.2.2.2.2 "Domain: a\nDomain: a\nInsertion delay: 1 ns"
      [("a", DomainEntry.mk (some 1) none)] (by decide!)⟩

/-! ### C10 infrastructure -/

theorem takeWhile_all (p : Char → Bool) : ∀ l : List Char, ((l.takeWhile p).all p) = true := by
  intro l
  induction l with
  | nil => rfl
  | cons c t ih =>
      by_cases h : p c = true
      · simp [List.takeWhile_cons, h, ih]
      · simp [List.takeWhile_cons, h]

theorem pyFloatCore_nonneg (l : List Char) (v : ℚ) (h : pyFloatCore? l = some v) :
    0 ≤ v := by
  unfold pyFloatCore? at h
  dsimp only at h
  split at h
  · split at h
    · obtain rfl := Option.some.inj h
      exact_mod_cast Nat.zero_le _
    · exact Option.noConfusion h
  · split at h
    · obtain rfl := Option.some.inj h
      positivity
    · exact Option.noConfusion h
  · exact Option.noConfusion h

theorem pyFloat_frag_nonneg (l : List Char) (v : ℚ)
    (hall : l.all isFragChar = true) (h : pyFloat? l = some v) : 0 ≤ v := by
  unfold pyFloat? at h
  split at h
  · simp [isFragChar] at hall
  · simp [isFragChar] at hall
  · exact pyFloatCore_nonneg _ _ h

theorem matchNumUnitRest_frag (unit r : List Char) (frag : List Char)
    (h : matchNumUnitRest unit r = some frag) : frag.all isFragChar = true := by
  unfold matchNumUnitRest at h
  split at h
  · dsimp only at h
    split at h
    · exact Option.noConfusion h
    · split at h
      · obtain rfl := Option.some.inj h
        exact takeWhile_all _ _
      · exact Option.noConfusion h
  · exact Option.noConfusion h

theorem matchInsAt_frag (l : List Char) (frag : List Char)
    (h : matchInsAt l = some frag) : frag.all isFragChar = true := by
  unfold matchInsAt at h
  dsimp only at h
  split at h
  · rename_i g hg
    obtain rfl := Option.some.inj h
    split at hg
    · split at hg
      · split at hg
        · split at hg
          · split at hg
            · exact matchNumUnitRest_frag _ _ _ hg
            · exact Option.noConfusion hg
          · exact Option.noConfusion hg
        · exact Option.noConfusion hg
      · exact Option.noConfusion hg
    · exact Option.noConfusion hg
  · split at h
    · split at h
      · split at h
        · exact matchNumUnitRest_frag _ _ _ h
        · exact Option.noConfusion h
      · exact Option.noConfusion h
    · exact Option.noConfusion h

theorem matchSkewAt_frag (l : List Char) (frag : List Char)
    (h : matchSkewAt l = some frag) : frag.all isFragChar = true := by
  unfold matchSkewAt at h
  dsimp only at h
  split at h
  · rename_i g hg
    obtain rfl := Option.some.inj h
    split at hg
    · split at hg
      · split at hg
        · exact matchNumUnitRest_frag _ _ _ hg
        · exact Option.noConfusion hg
      · exact Option.noConfusion hg
    · exact Option.noConfusion hg
  · split at h
    · exact matchNumUnitRest_frag _ _ _ h
    · exact Option.noConfusion h

theorem searchAux_spec {α : Type} (f : List Char → Option α) (P : α → Prop)
    (hf : ∀ l a, f l = some a → P a) : ∀ l a, searchAux f l = some a → P a := by
  intro l
  induction l with
  | nil => intro a h; exact hf [] a h
  | cons c r ih =>
      intro a h
      unfold searchAux at h
      rcases hc : f (c :: r) with _ | b <;> rw [hc] at h <;> dsimp only at h
      · exact ih a h
      · obtain rfl := Option.some.inj h
        exact hf _ _ hc

theorem searchIns_frag (l : List Char) (frag : List Char)
    (h : searchIns l = some frag) : frag.all isFragChar = true :=
  searchAux_spec matchInsAt _ matchInsAt_frag l frag h

theorem searchSkew_frag (l : List Char) (frag : List Char)
    (h : searchSkew l = some frag) : frag.all isFragChar = true :=
  searchAux_spec matchSkewAt _ matchSkewAt_frag l frag h

/-- All numeric fields currently stored in the mapping are nonnegative. -/
def alNonneg (al : List (String × DomainEntry)) : Prop :=
  ∀ p ∈ al, 0 ≤ p.2.avg_insertion_ns.getD 0 ∧ 0 ≤ p.2.global_skew_ps.getD 0

theorem alNonneg_setdefault (al : List (String × DomainEntry)) (k : String)
    (h : alNonneg al) : alNonneg (alistSetdefault al k) := by
  unfold alistSetdefault
  by_cases hm : k ∈ alistKeys al
  · rw [if_pos hm]; exact h
  · rw [if_neg hm]
    intro p hp
    rcases List.mem_append.mp hp with h1 | h1
    · exact h p h1
    · obtain rfl := List.mem_singleton.mp h1
      exact ⟨le_refl 0, le_refl 0⟩

theorem alNonneg_setAvg (al : List (String × DomainEntry)) (k : String) (v : ℚ)
    (hv : 0 ≤ v) (h : alNonneg al) : alNonneg (alistSetAvg al k v) := by
  induction al with
  | nil => intro p hp; exact absurd hp (List.not_mem_nil p)
  | cons q t ih =>
      have hq := h q (List.mem_cons_self q t)
      have ht : alNonneg t := fun p hp => h p (List.mem_cons_of_mem q hp)
      intro p hp
      unfold alistSetAvg at hp
      rcases List.mem_cons.mp hp with h1 | h1
      · subst h1
        by_cases hqk : q.1 = k
        · rw [if_pos hqk]
          exact ⟨by simpa using hv, hq.2⟩
        · rw [if_neg hqk]
          exact hq
      · exact ih ht p h1

theorem alNonneg_setSkew (al : List (String × DomainEntry)) (k : String) (v : ℚ)
    (hv : 0 ≤ v) (h : alNonneg al) : alNonneg (alistSetSkew al k v) := by
  induction al with
  | nil => intro p hp; exact absurd hp (List.not_mem_nil p)
  | cons q t ih =>
      have hq := h q (List.mem_cons_self q t)
      have ht : alNonneg t := fun p hp => h p (List.mem_cons_of_mem q hp)
      intro p hp
      unfold alistSetSkew at hp
      rcases List.mem_cons.mp hp with h1 | h1
      · subst h1
        by_cases hqk : q.1 = k
        · rw [if_pos hqk]
          exact ⟨hq.1, by simpa using hv⟩
        · rw [if_neg hqk]
          exact hq
      · exact ih ht p h1

theorem skewStep_nonneg (st : SkewState) (line : String) (st2 : SkewState)
    (h : skewStep st line = .ok st2) (hal : alNonneg st.domains) :
    alNonneg st2.domains := by
  unfold skewStep at h
  dsimp only at h
  rcases hh : matchHeaderAt (stripChars line.data) with _ | nm <;> rw [hh] at h <;>
    dsimp only at h
  · rcases hcur : st.current with _ | cur <;> rw [hcur] at h <;> dsimp only at h
    · obtain rfl := Except.ok.inj h
      exact hal
    · rcases hins : searchIns (stripChars line.data) with _ | frag <;> rw [hins] at h <;>
        dsimp only at h
      · rcases hsk : searchSkew (stripChars line.data) with _ | frag2 <;> rw [hsk] at h <;>
          dsimp only at h
        · obtain rfl := Except.ok.inj h
          exact hal
        · rcases hpf : pyFloat? frag2 with _ | v2 <;> rw [hpf] at h <;> dsimp only at h
          · exact Except.noConfusion h
          · obtain rfl := Except.ok.inj h
            exact alNonneg_setSkew _ _ _
              (pyFloat_frag_nonneg _ _ (searchSkew_frag _ _ hsk) hpf) hal
      · rcases hpf : pyFloat? frag with _ | v <;> rw [hpf] at h <;> dsimp only at h
        · exact Except.noConfusion h
        · rcases hsk : searchSkew (stripChars line.data) with _ | frag2 <;> rw [hsk] at h <;>
            dsimp only at h
          · obtain rfl := Except.ok.inj h
            exact alNonneg_setAvg _ _ _
              (pyFloat_frag_nonneg _ _ (searchIns_frag _ _ hins) hpf) hal
          · rcases hpf2 : pyFloat? frag2 with _ | v2 <;> rw [hpf2] at h <;> dsimp only at h
            · exact Except.noConfusion h
            · obtain rfl := Except.ok.inj h
              exact alNonneg_setSkew _ _ _
                (pyFloat_frag_nonneg _ _ (searchSkew_frag _ _ hsk) hpf2)
                (alNonneg_setAvg _ _ _
                  (pyFloat_frag_nonneg _ _ (searchIns_frag _ _ hins) hpf) hal)
  · obtain rfl := Except.ok.inj h
    exact alNonneg_setdefault _ _ hal

theorem skewRun_nonneg : ∀ (lines : List String) (st st' : SkewState),
    skewRun st lines = .ok st' → alNonneg st.domains → alNonneg st'.domains := by
  intro lines
  induction lines with
  | nil =>
      intro st st' h hal
      obtain rfl := Except.ok.inj h
      exact hal
  | cons ln rest ih =>
      intro st st' h hal
      unfold skewRun at h
      rcases hs : skewStep st ln with e | st1 <;> rw [hs] at h <;> dsimp only at h
      · exact Except.noConfusion h
      · exact ih st1 st' h (skewStep_nonneg st ln st1 hs hal)

/-! ### C10 -/

/-- C10: every `avg_insertion_ns` and every `global_skew_ps` present in
the skew extractor's output is nonnegative: the field patterns only accept
unsigned digit/dot fragments, so a negative value can never be
extracted. -/
theorem skew_values_nonneg (t : String) (res : List (String × DomainEntry))
    (k : String) (e : DomainEntry)
    (hres : parse_ccopt_skew_report t = .ok res) (hmem : (k, e) ∈ res) :
    0 ≤ e.avg_insertion_ns.getD 0 ∧ 0 ≤ e.global_skew_ps.getD 0 := by
  unfold parse_ccopt_skew_report at hres
  rcases hr : skewRun ⟨[], none⟩ (t.splitOn "\n") with err | stf <;> rw [hr] at hres <;>
    dsimp only at hres
  · exact Except.noConfusion hres
  · obtain rfl := Except.ok.inj hres
    have hinv : alNonneg stf.domains :=
      skewRun_nonneg (t.splitOn "\n") ⟨[], none⟩ stf hr
        (fun p hp => absurd hp (List.not_mem_nil p))
    exact hinv (k, e) hmem

/-- Witness for C10 on the concrete report `"Domain: a\nGlobal skew: 125 ps"`. -/
theorem skew_values_nonneg_w :
    0 ≤ (none : Option ℚ).getD 0 ∧ 0 ≤ (some (125 : ℚ)).getD 0 :=
  skew_values_nonneg "Domain: a\nGlobal skew: 125 ps"
    [("a", DomainEntry.mk none (some 125))] "a" (DomainEntry.mk none (some 125))
    (by decide!) (by decide!)
